import Mathlib

/-!
Shallow embedding of `langchain_community/llms/minimax.py`: the Minimax LLM
adapter (`MinimaxCommon` / `Minimax`) and its endpoint client
(`_MinimaxEndpointClient`), together with the pieces of its external
collaborators that its behaviour depends on (the `requests` response object,
`langchain_core.utils.get_from_dict_or_env`, and the repository utility
`enforce_stop_tokens`, the last modelled from the spec because its source
file is not part of the sources under verification).

Python dictionaries are modelled as association lists with Python's
insertion-order update semantics; JSON values as an inductive `JValue`;
float configuration fields as rationals (they are only stored and
serialized, never computed with).
-/

set_option autoImplicit false

namespace Minimax

/-- JSON-like values: the payloads of request and response bodies. -/
inductive JValue where
  | str (s : String)
  | int (n : Int)
  | rat (q : Rat)
  | bool (b : Bool)
  | null
  | list (xs : List JValue)
  | obj (fields : List (String × JValue))
  deriving Repr

/-- A Python `dict` with string keys, as an insertion-ordered association list. -/
abbrev Dict := List (String × JValue)

/-- Python `d[k] = v`: overwrite the binding in place when the key exists
(keeping its position), append otherwise. -/
def dictSet : Dict → String → JValue → Dict
  | [], k, v => [(k, v)]
  | p :: d, k, v => if p.1 = k then (k, v) :: d else p :: dictSet d k v

/-- Python `d.update(u)`: apply `dictSet` for each entry of `u` in order. -/
def dictUpdate (d : Dict) (u : Dict) : Dict :=
  u.foldl (fun acc p => dictSet acc p.1 p.2) d

/-- Python `d[k]` lookup (first binding; dicts built by `dictSet` have no
duplicate keys). -/
def dictGet : Dict → String → Option JValue
  | [], _ => none
  | p :: d, k => if p.1 = k then some p.2 else dictGet d k

/-- Python `k in d`. -/
def containsKey : Dict → String → Bool
  | [], _ => false
  | p :: d, k => p.1 = k || containsKey d k

/-- The value the LAST binding of `k` in the list `u` carries: this is the
value that survives when `u` is merged into a dict by `dictUpdate`. -/
def lastVal : Dict → String → Option JValue
  | [], _ => none
  | p :: u, k =>
    match lastVal u k with
    | some v => some v
    | none => if p.1 = k then some p.2 else none

/-- Field lookup on a JSON object (`j["k"]` in Python); `none` models the
`KeyError` / non-object cases. -/
def jGet (j : JValue) (k : String) : Option JValue :=
  match j with
  | JValue.obj fields => dictGet fields k
  | _ => none

/-- Pydantic `SecretStr`. -/
structure SecretStr where
  secret : String
  deriving Repr, DecidableEq

/-- The single error channel of the adapter, the taxonomy of the spec:
configuration failure at construction, HTTP failure, application-level
failure, plus the Python runtime errors (`KeyError`, JSON decode failure,
`TypeError`) that a malformed response would raise. -/
inductive MinimaxError where
  | ConfigurationError (envKey : String)
  | TransportError (status : Nat) (text : String)
  | ApplicationError (code : Int) (msg : String)
  | KeyError (key : String)
  | TypeError (what : String)
  deriving Repr, DecidableEq

/-- `_MinimaxEndpointClient`: host, group id, api key and the derived call URL. -/
structure EndpointClient where
  host : String
  group_id : String
  api_key : SecretStr
  api_url : String
  deriving Repr, DecidableEq

/-- The `set_api_url` model validator: construction of `_MinimaxEndpointClient`
derives `api_url` from `host` and `group_id` when it is not supplied. -/
def mkEndpointClient (host group_id : String) (api_key : SecretStr)
    (api_url : Option String) : EndpointClient :=
  { host := host
    group_id := group_id
    api_key := api_key
    api_url := api_url.getD (host ++ "/v1/text/chatcompletion?GroupId=" ++ group_id) }

/-- An outbound HTTP POST as handed to the transport layer (`requests.post`):
target URL, `Authorization` header value, JSON body. -/
structure OutboundRequest where
  url : String
  authorization : String
  body : Dict
  deriving Repr

/-- A `requests` response: status code, raw body text, and the parsed JSON
body (`none` when the body is not JSON, where `response.json()` raises). -/
structure HTTPResponse where
  status_code : Nat
  text : String
  json : Option JValue
  deriving Repr

/-- `requests.Response.ok`: true exactly when the status code is below 400. -/
def HTTPResponse.ok (r : HTTPResponse) : Bool :=
  r.status_code < 400

/-- Build a response from status code, raw text and parsed JSON body. -/
def mkResponse (status : Nat) (text : String) (body : Option JValue) : HTTPResponse :=
  { status_code := status, text := text, json := body }

/-- A transport: the one outbound network call, mapping the request actually
sent to the response received. -/
abbrev Transport := OutboundRequest → HTTPResponse

/-- Response handling of `_MinimaxEndpointClient.post` after the HTTP exchange:
raise on non-ok status (carrying status and raw text), raise on positive
`base_resp.status_code` (carrying code and `status_msg`), otherwise return the
`reply` field of the parsed body. -/
def handleResponse (response : HTTPResponse) : Except MinimaxError JValue :=
  if ¬ response.ok then
    Except.error (MinimaxError.TransportError response.status_code response.text)
  else
    match response.json with
    | none => Except.error (MinimaxError.KeyError "json")
    | some j =>
      match jGet j "base_resp" with
      | none => Except.error (MinimaxError.KeyError "base_resp")
      | some base =>
        match jGet base "status_code" with
        | none => Except.error (MinimaxError.KeyError "status_code")
        | some codeVal =>
          match codeVal with
          | JValue.int code =>
            if code > 0 then
              match jGet base "status_msg" with
              | none => Except.error (MinimaxError.KeyError "status_msg")
              | some msgVal =>
                match msgVal with
                | JValue.str msg =>
                  Except.error (MinimaxError.ApplicationError code msg)
                | _ => Except.error (MinimaxError.TypeError "status_msg")
            else
              match jGet j "reply" with
              | none => Except.error (MinimaxError.KeyError "reply")
              | some reply => Except.ok reply
          | _ => Except.error (MinimaxError.TypeError "status_code")

/-- `_MinimaxEndpointClient.post`: one outbound call with the bearer header
and the derived URL, then response handling. -/
def EndpointClient.post (c : EndpointClient) (transport : Transport)
    (request : Dict) : Except MinimaxError JValue :=
  handleResponse (transport
    { url := c.api_url
      authorization := "Bearer " ++ c.api_key.secret
      body := request })

/-- `MinimaxCommon`: the adapter configuration together with the bound client. -/
structure MinimaxCommon where
  _client : EndpointClient
  model : String := "abab5.5-chat"
  max_tokens : Int := 256
  temperature : Rat := 7 / 10
  top_p : Rat := 95 / 100
  model_kwargs : Dict := []
  minimax_api_host : Option String := none
  minimax_group_id : Option String := none
  minimax_api_key : Option SecretStr := none
  deriving Repr

/-- The constructor arguments of the adapter (every field optional or
defaulted, as in the pydantic model). -/
structure MinimaxArgs where
  minimax_api_key : Option String := none
  minimax_group_id : Option String := none
  minimax_api_host : Option String := none
  model : String := "abab5.5-chat"
  max_tokens : Int := 256
  temperature : Rat := 7 / 10
  top_p : Rat := 95 / 100
  model_kwargs : Dict := []
  deriving Repr

/-- The process environment: the three variables the adapter consults. -/
structure Env where
  MINIMAX_API_KEY : Option String := none
  MINIMAX_GROUP_ID : Option String := none
  MINIMAX_API_HOST : Option String := none
  deriving Repr, DecidableEq

/-- Python truthiness filter on an optional string: `langchain_core`'s
resolution skips values that are present but empty. -/
def truthy : Option String → Option String
  | some s => if s = "" then none else some s
  | none => none

/-- `langchain_core.utils.get_from_dict_or_env`: explicit value when present
and non-empty, else environment value when present and non-empty, else the
default; `none` models the `ValueError` raised when all three are absent. -/
def get_from_dict_or_env (dictVal envVal default : Option String) : Option String :=
  match truthy dictVal with
  | some s => some s
  | none =>
    match truthy envVal with
    | some s => some s
    | none => default

/-- The api key as resolved by `validate_environment`. -/
def resolvedApiKey (args : MinimaxArgs) (env : Env) : Option String :=
  get_from_dict_or_env args.minimax_api_key env.MINIMAX_API_KEY none

/-- The group id as resolved by `validate_environment`. -/
def resolvedGroupId (args : MinimaxArgs) (env : Env) : Option String :=
  get_from_dict_or_env args.minimax_group_id env.MINIMAX_GROUP_ID none

/-- The api host as resolved by `validate_environment` (with its default). -/
def resolvedApiHost (args : MinimaxArgs) (env : Env) : Option String :=
  get_from_dict_or_env args.minimax_api_host env.MINIMAX_API_HOST
    (some "https://api.minimax.chat")

/-- `MinimaxCommon.validate_environment` as the construction function of the
adapter: resolve api key, group id and host in that order (failing with a
configuration error naming the missing variable), then bind one endpoint
client to the resolved credentials. -/
def construct (args : MinimaxArgs) (env : Env) : Except MinimaxError MinimaxCommon :=
  match resolvedApiKey args env with
  | none => Except.error (MinimaxError.ConfigurationError "MINIMAX_API_KEY")
  | some apiKey =>
    match resolvedGroupId args env with
    | none => Except.error (MinimaxError.ConfigurationError "MINIMAX_GROUP_ID")
    | some groupId =>
      match resolvedApiHost args env with
      | none => Except.error (MinimaxError.ConfigurationError "MINIMAX_API_HOST")
      | some host =>
        Except.ok
          { _client := mkEndpointClient host groupId ⟨apiKey⟩ none
            model := args.model
            max_tokens := args.max_tokens
            temperature := args.temperature
            top_p := args.top_p
            model_kwargs := args.model_kwargs
            minimax_api_host := some host
            minimax_group_id := some groupId
            minimax_api_key := some ⟨apiKey⟩ }

/-- `MinimaxCommon._default_params`: the dict literal
`{model, tokens_to_generate, temperature, top_p, **model_kwargs}`. -/
def default_params (m : MinimaxCommon) : Dict :=
  dictUpdate
    [("model", JValue.str m.model),
     ("tokens_to_generate", JValue.int m.max_tokens),
     ("temperature", JValue.rat m.temperature),
     ("top_p", JValue.rat m.top_p)]
    m.model_kwargs

/-- `MinimaxCommon._identifying_params`: `{model, **_default_params}`. -/
def identifying_params (m : MinimaxCommon) : Dict :=
  dictUpdate [("model", JValue.str m.model)] (default_params m)

/-- The `messages` value `[{sender_type: "USER", text: prompt}]` built by
`Minimax._call`. -/
def messagesFor (prompt : String) : JValue :=
  JValue.list [JValue.obj [("sender_type", JValue.str "USER"),
                           ("text", JValue.str prompt)]]

/-- The request body `Minimax._call` sends: `_default_params`, then
`request["messages"] = ...`, then `request.update(kwargs)`. -/
def buildRequest (m : MinimaxCommon) (prompt : String) (kwargs : Dict) : Dict :=
  dictUpdate (dictSet (default_params m) "messages" (messagesFor prompt)) kwargs

/-- Whether the pattern matches the text starting at its head
(character-by-character literal comparison, no escaping). -/
def strMatch : List Char → List Char → Bool
  | [], _ => true
  | _ :: _, [] => false
  | p :: ps, c :: cs => p = c && strMatch ps cs

/-- Index of the first literal occurrence of `pat` in the text, if any. -/
def findSubstr (pat : List Char) : List Char → Option Nat
  | [] => if strMatch pat [] then some 0 else none
  | c :: t =>
    if strMatch pat (c :: t) then some 0
    else (findSubstr pat t).map (fun i => i + 1)

/-- Index of the earliest occurrence of any stop string in the text; on an
exact index tie the stop string earliest in the list wins (the truncation
result is the same either way). -/
def earliestStop (text : List Char) : List String → Option Nat
  | [] => none
  | s :: rest =>
    match findSubstr s.data text, earliestStop text rest with
    | none, r => r
    | some i, none => some i
    | some i, some j => if j < i then some j else some i

/-- Modelled from the spec: `enforce_stop_tokens` from
`langchain_community.llms.utils`, whose source file is not among the sources
under verification. Per the spec, it scans the reply for the earliest
occurring index of any stop string by literal substring occurrence and
truncates the reply to end just before that index; when no stop string
occurs, the reply is returned unmodified. -/
def enforce_stop_tokens (text : String) (stop : List String) : String :=
  match earliestStop text.data stop with
  | none => text
  | some i => String.mk (text.data.take i)

/-- `Minimax._call`: build the request, post it, then apply the stop-token
filter exactly when `stop` is not `None` (the filter requires a string). -/
def call (m : MinimaxCommon) (transport : Transport) (prompt : String)
    (stop : Option (List String)) (kwargs : Dict) : Except MinimaxError JValue :=
  match m._client.post transport (buildRequest m prompt kwargs) with
  | Except.error e => Except.error e
  | Except.ok reply =>
    match stop with
    | none => Except.ok reply
    | some s =>
      match reply with
      | JValue.str t => Except.ok (JValue.str (enforce_stop_tokens t s))
      | _ => Except.error (MinimaxError.TypeError "enforce_stop_tokens")

/-- `Minimax._call` with the adapter state threaded explicitly: the body of
`_call` contains no assignment to `self` (the request dict is freshly built
by `_default_params`, whose `**` unpacking copies `model_kwargs`), so the
post-state is the pre-state. -/
def callST (m : MinimaxCommon) (transport : Transport) (prompt : String)
    (stop : Option (List String)) (kwargs : Dict) :
    (Except MinimaxError JValue) × MinimaxCommon :=
  (call m transport prompt stop kwargs, m)

/-- A well-formed response envelope, the shape the remote service answers
with per the data model: `{base_resp: {status_code, status_msg}, reply}`. -/
def envelopeBody (code : Int) (msg : String) (reply : String) : JValue :=
  JValue.obj
    [("base_resp", JValue.obj [("status_code", JValue.int code),
                               ("status_msg", JValue.str msg)]),
     ("reply", JValue.str reply)]

/-- A transport that ignores the request and answers HTTP 200 with a
successful envelope carrying the given reply. -/
def echoTransport (reply : String) : Transport :=
  fun _ => { status_code := 200, text := "", json := some (envelopeBody 0 "" reply) }

/-- A concrete, fully explicit adapter configuration used as test fixture. -/
def argsEx : MinimaxArgs :=
  { minimax_api_key := some "my-api-key"
    minimax_group_id := some "my-group-id" }

/-- A concrete environment with nothing set. -/
def envEx : Env := {}

/-- The adapter `construct argsEx envEx` produces. -/
def mEx : MinimaxCommon :=
  { _client := mkEndpointClient "https://api.minimax.chat" "my-group-id"
      ⟨"my-api-key"⟩ none
    minimax_api_host := some "https://api.minimax.chat"
    minimax_group_id := some "my-group-id"
    minimax_api_key := some ⟨"my-api-key"⟩ }

/-- A transport that answers HTTP 500 with a non-JSON body. -/
def transport500 : Transport :=
  fun _ => { status_code := 500, text := "oops", json := none }

/-- A transport that answers HTTP 200 with an application-level error
envelope (`status_code` 1002, `status_msg` "rate limited"). -/
def transportRateLimited : Transport :=
  fun _ => { status_code := 200, text := "",
             json := some (envelopeBody 1002 "rate limited" "") }

/-- The string `s` occurs (as a literal substring) in `text` starting at
character index `i`. -/
def occursAt (s : String) (text : String) (i : Nat) : Prop :=
  ∃ l r : List Char, text.data = l ++ s.data ++ r ∧ l.length = i

theorem dictUpdate_nil (d : Dict) : dictUpdate d [] = d := rfl

theorem dictUpdate_cons (d : Dict) (p : String × JValue) (u : Dict) :
    dictUpdate d (p :: u) = dictUpdate (dictSet d p.1 p.2) u := rfl

theorem dictGet_dictSet (d : Dict) (k k' : String) (v : JValue) :
    dictGet (dictSet d k v) k' = if k' = k then some v else dictGet d k' := by
  induction d with
  | nil =>
    by_cases h : k' = k
    · subst h; simp [dictSet, dictGet]
    · simp [dictSet, dictGet, h, Ne.symm h]
  | cons p d ih =>
    by_cases hpk : p.1 = k
    · by_cases h : k' = k
      · subst h; simp [dictSet, hpk, dictGet]
      · have hk : ¬ k = k' := fun h2 => h h2.symm
        simp [dictSet, hpk, dictGet, h, hk]
    · by_cases hpk' : p.1 = k'
      · have hk : ¬ k' = k := fun h2 => hpk (hpk'.trans h2)
        simp [dictSet, hpk, dictGet, hpk', hk]
      · simp [dictSet, hpk, dictGet, hpk', ih]

theorem containsKey_dictSet (d : Dict) (k k' : String) (v : JValue) :
    containsKey (dictSet d k v) k' = true ↔ k = k' ∨ containsKey d k' = true := by
  induction d with
  | nil => simp [dictSet, containsKey]
  | cons p d ih =>
    by_cases hpk : p.1 = k
    · subst hpk
      simp [dictSet, containsKey]
    · simp only [dictSet, if_neg hpk, containsKey, Bool.or_eq_true,
        decide_eq_true_eq, ih]
      tauto

theorem containsKey_cons (p : String × JValue) (d : Dict) (k : String) :
    containsKey (p :: d) k = true ↔ p.1 = k ∨ containsKey d k = true := by
  simp [containsKey]

theorem dictGet_dictUpdate (u : Dict) (d : Dict) (k : String) :
    dictGet (dictUpdate d u) k =
      match lastVal u k with
      | some v => some v
      | none => dictGet d k := by
  induction u generalizing d with
  | nil => rfl
  | cons p u ih =>
    rw [dictUpdate_cons, ih]
    cases hl : lastVal u k with
    | some v => simp [lastVal, hl]
    | none =>
      by_cases h : p.1 = k
      · simp [lastVal, hl, h, dictGet_dictSet]
      · have hk : ¬ k = p.1 := fun h2 => h h2.symm
        simp [lastVal, hl, h, hk, dictGet_dictSet]

theorem containsKey_dictUpdate (u : Dict) (d : Dict) (k : String) :
    containsKey (dictUpdate d u) k = true ↔
      containsKey d k = true ∨ containsKey u k = true := by
  induction u generalizing d with
  | nil => rw [dictUpdate_nil]; simp [containsKey]
  | cons p u ih =>
    rw [dictUpdate_cons, ih, containsKey_dictSet, containsKey_cons]
    tauto

theorem lastVal_eq_none (u : Dict) (k : String) :
    lastVal u k = none ↔ containsKey u k = false := by
  induction u with
  | nil => simp [lastVal, containsKey]
  | cons p u ih =>
    cases hl : lastVal u k with
    | some v =>
      have hc : containsKey u k = true := by
        cases hck : containsKey u k
        · exact absurd (ih.mpr hck) (by simp [hl])
        · rfl
      simp [lastVal, hl, containsKey, hc]
    | none =>
      by_cases h : p.1 = k
      · simp [lastVal, hl, h, containsKey, ih.mp hl]
      · simp [lastVal, hl, h, containsKey, ih.mp hl]

theorem strMatch_iff_append (p t : List Char) :
    strMatch p t = true ↔ ∃ r, t = p ++ r := by
  induction p generalizing t with
  | nil => simp [strMatch]
  | cons a ps ih =>
    cases t with
    | nil =>
      simp only [strMatch, List.cons_append]
      constructor
      · intro h; cases h
      · rintro ⟨r, h⟩; cases h
    | cons c cs =>
      simp only [strMatch, Bool.and_eq_true, decide_eq_true_eq, ih, List.cons_append]
      constructor
      · rintro ⟨rfl, r, rfl⟩
        exact ⟨r, rfl⟩
      · rintro ⟨r, h⟩
        injection h with h1 h2
        exact ⟨h1.symm, r, h2⟩

theorem findSubstr_le (pat text : List Char) (i : Nat)
    (h : findSubstr pat text = some i) : i ≤ text.length := by
  induction text generalizing i with
  | nil =>
    by_cases hm : strMatch pat [] = true
    · simp [findSubstr, hm] at h
      omega
    · simp [findSubstr, hm] at h
  | cons c t ih =>
    by_cases hm : strMatch pat (c :: t) = true
    · simp [findSubstr, hm] at h
      omega
    · simp only [findSubstr, if_neg hm, Option.map_eq_some'] at h
      rcases h with ⟨j, hj, rfl⟩
      have := ih j hj
      simp [List.length_cons]
      omega

theorem findSubstr_some (pat text : List Char) (i : Nat)
    (h : findSubstr pat text = some i) :
    strMatch pat (text.drop i) = true ∧
      ∀ j, j < i → strMatch pat (text.drop j) = false := by
  induction text generalizing i with
  | nil =>
    by_cases hm : strMatch pat [] = true
    · simp [findSubstr, hm] at h
      subst h
      exact ⟨hm, by omega⟩
    · simp [findSubstr, hm] at h
  | cons c t ih =>
    by_cases hm : strMatch pat (c :: t) = true
    · simp [findSubstr, hm] at h
      subst h
      exact ⟨hm, by omega⟩
    · simp only [findSubstr, if_neg hm, Option.map_eq_some'] at h
      rcases h with ⟨j, hj, rfl⟩
      rcases ih j hj with ⟨h1, h2⟩
      refine ⟨h1, ?_⟩
      intro j' hj'
      cases j' with
      | zero =>
        simpa using Bool.eq_false_iff.mpr hm
      | succ j'' =>
        exact h2 j'' (by omega)

theorem findSubstr_none (pat text : List Char)
    (h : findSubstr pat text = none) :
    ∀ j, strMatch pat (text.drop j) = false := by
  induction text with
  | nil =>
    intro j
    by_cases hm : strMatch pat [] = true
    · simp [findSubstr, hm] at h
    · simpa [List.drop_nil] using Bool.eq_false_iff.mpr hm
  | cons c t ih =>
    by_cases hm : strMatch pat (c :: t) = true
    · simp [findSubstr, hm] at h
    · simp only [findSubstr, if_neg hm, Option.map_eq_none'] at h
      intro j
      cases j with
      | zero => exact Bool.eq_false_iff.mpr hm
      | succ j' => exact ih h j'

theorem findSubstr_complete (pat text : List Char) (j : Nat)
    (h : strMatch pat (text.drop j) = true) :
    ∃ i, findSubstr pat text = some i ∧ i ≤ j := by
  cases hf : findSubstr pat text with
  | none =>
    have := findSubstr_none pat text hf j
    rw [h] at this
    cases this
  | some i =>
    refine ⟨i, rfl, ?_⟩
    by_contra hlt
    have := (findSubstr_some pat text i hf).2 j (by omega)
    rw [h] at this
    cases this

theorem earliestStop_none (text : List Char) (stop : List String)
    (h : earliestStop text stop = none) :
    ∀ s ∈ stop, findSubstr s.data text = none := by
  induction stop with
  | nil => simp
  | cons a rest ih =>
    have hsplit : findSubstr a.data text = none ∧ earliestStop text rest = none := by
      cases hf : findSubstr a.data text with
      | none =>
        refine ⟨rfl, ?_⟩
        simpa [earliestStop, hf] using h
      | some i =>
        exfalso
        cases he : earliestStop text rest with
        | none => simp [earliestStop, hf, he] at h
        | some j =>
          have h' : (if j < i then some j else some i) = (none : Option Nat) := by
            simpa [earliestStop, hf, he] using h
          split at h' <;> simp at h'
    intro s hs
    rcases List.mem_cons.mp hs with rfl | hs'
    · exact hsplit.1
    · exact ih hsplit.2 s hs'

theorem earliestStop_some (text : List Char) (stop : List String) : ∀ (i : Nat),
    earliestStop text stop = some i →
    (∃ s ∈ stop, findSubstr s.data text = some i) ∧
      (∀ s ∈ stop, ∀ j, findSubstr s.data text = some j → i ≤ j) := by
  induction stop with
  | nil => intro i h; simp [earliestStop] at h
  | cons a rest ih =>
    intro i h
    cases hf : findSubstr a.data text with
    | none =>
      have h' : earliestStop text rest = some i := by
        simpa [earliestStop, hf] using h
      rcases ih i h' with ⟨⟨s, hs, hfs⟩, hmin⟩
      refine ⟨⟨s, List.mem_cons_of_mem a hs, hfs⟩, ?_⟩
      intro s' hs' j hj
      rcases List.mem_cons.mp hs' with rfl | hs''
      · rw [hf] at hj; cases hj
      · exact hmin s' hs'' j hj
    | some i₀ =>
      cases he : earliestStop text rest with
      | none =>
        have hi : i₀ = i := by
          simpa [earliestStop, hf, he] using h
        subst hi
        refine ⟨⟨a, List.mem_cons_self a rest, hf⟩, ?_⟩
        intro s' hs' j hj
        rcases List.mem_cons.mp hs' with rfl | hs''
        · rw [hf] at hj
          injection hj with hj
          omega
        · rw [earliestStop_none text rest he s' hs''] at hj
          cases hj
      | some j₀ =>
        rcases ih j₀ he with ⟨⟨s, hs, hfs⟩, hmin⟩
        have h' : (if j₀ < i₀ then some j₀ else some i₀) = some i := by
          simpa [earliestStop, hf, he] using h
        by_cases hlt : j₀ < i₀
        · rw [if_pos hlt] at h'
          injection h' with h''
          subst h''
          refine ⟨⟨s, List.mem_cons_of_mem a hs, hfs⟩, ?_⟩
          intro s' hs' j hj
          rcases List.mem_cons.mp hs' with rfl | hs''
          · rw [hf] at hj
            injection hj with hj
            omega
          · exact hmin s' hs'' j hj
        · rw [if_neg hlt] at h'
          injection h' with h''
          subst h''
          refine ⟨⟨a, List.mem_cons_self a rest, hf⟩, ?_⟩
          intro s' hs' j hj
          rcases List.mem_cons.mp hs' with rfl | hs''
          · rw [hf] at hj
            injection hj with hj
            omega
          · have := hmin s' hs'' j hj
            omega

theorem occursAt_iff (s : String) (text : String) (i : Nat) :
    occursAt s text i ↔
      strMatch s.data (text.data.drop i) = true ∧ i ≤ text.data.length := by
  constructor
  · rintro ⟨l, r, htext, rfl⟩
    constructor
    · rw [htext, List.append_assoc, List.drop_left]
      exact (strMatch_iff_append s.data (s.data ++ r)).mpr ⟨r, rfl⟩
    · rw [htext, List.append_assoc, List.length_append]
      omega
  · rintro ⟨hm, hi⟩
    rcases (strMatch_iff_append _ _).mp hm with ⟨r, hr⟩
    refine ⟨text.data.take i, r, ?_, ?_⟩
    · conv_lhs => rw [← List.take_append_drop i text.data]
      rw [hr, List.append_assoc]
    · rw [List.length_take]
      omega

theorem enforce_eq_of_no_occurrence (text : String) (stop : List String)
    (h : ∀ i s, s ∈ stop → ¬ occursAt s text i) :
    enforce_stop_tokens text stop = text := by
  unfold enforce_stop_tokens
  cases he : earliestStop text.data stop with
  | none => rfl
  | some i =>
    exfalso
    rcases (earliestStop_some _ _ _ he).1 with ⟨s, hs, hf⟩
    have hm := (findSubstr_some _ _ _ hf).1
    have hle := findSubstr_le _ _ _ hf
    exact h i s hs ((occursAt_iff s text i).mpr ⟨hm, hle⟩)

theorem enforce_eq_take (text : String) (stop : List String) (i : Nat)
    (hocc : ∃ s ∈ stop, occursAt s text i)
    (hmin : ∀ j, j < i → ¬ ∃ s ∈ stop, occursAt s text j) :
    enforce_stop_tokens text stop = String.mk (text.data.take i) := by
  rcases hocc with ⟨s, hs, hocc⟩
  rcases (occursAt_iff s text i).mp hocc with ⟨hm, hi⟩
  rcases findSubstr_complete s.data text.data i hm with ⟨i₀, hf₀, hle₀⟩
  have hocc₀ : occursAt s text i₀ :=
    (occursAt_iff s text i₀).mpr ⟨(findSubstr_some _ _ _ hf₀).1, le_trans hle₀ hi⟩
  have hi₀ : i₀ = i := by
    rcases Nat.lt_or_ge i₀ i with hlt | hge
    · exact absurd ⟨s, hs, hocc₀⟩ (hmin i₀ hlt)
    · omega
  subst hi₀
  cases he : earliestStop text.data stop with
  | none =>
    exact absurd (earliestStop_none _ _ he s hs) (by simp [hf₀])
  | some i₁ =>
    have h1 := (earliestStop_some _ _ _ he).2 s hs _ hf₀
    rcases (earliestStop_some _ _ _ he).1 with ⟨s', hs', hf'⟩
    have hocc' : occursAt s' text i₁ :=
      (occursAt_iff _ _ _).mpr ⟨(findSubstr_some _ _ _ hf').1, findSubstr_le _ _ _ hf'⟩
    have h2 : ¬ i₁ < i₀ := fun hlt => (hmin i₁ hlt) ⟨s', hs', hocc'⟩
    have h3 : i₁ = i₀ := by omega
    subst h3
    unfold enforce_stop_tokens
    rw [he]

theorem get_from_dict_or_env_default (d e : Option String) (v : String) :
    ∃ s, get_from_dict_or_env d e (some v) = some s := by
  unfold get_from_dict_or_env
  cases truthy d with
  | some s => exact ⟨s, rfl⟩
  | none =>
    cases truthy e with
    | some s => exact ⟨s, rfl⟩
    | none => exact ⟨v, rfl⟩

/-- C1: if the api key (or the group id) is supplied neither as an explicit
argument nor via the corresponding environment variable, construction fails
with a `ConfigurationError`; when both are resolvable, construction succeeds
and binds one `EndpointClient` to the resolved credentials. -/
theorem minimax_construct_spec (args : MinimaxArgs) (env : Env) :
    ((args.minimax_api_key = none ∧ env.MINIMAX_API_KEY = none) ∨
      (args.minimax_group_id = none ∧ env.MINIMAX_GROUP_ID = none) →
      ∃ e, construct args env = Except.error (MinimaxError.ConfigurationError e)) ∧
    (∀ k g, resolvedApiKey args env = some k → resolvedGroupId args env = some g →
      ∃ host m, resolvedApiHost args env = some host ∧
        construct args env = Except.ok m ∧
        m._client = mkEndpointClient host g ⟨k⟩ none ∧
        m._client.api_key = ⟨k⟩ ∧ m._client.group_id = g ∧ m._client.host = host) := by
  constructor
  · rintro (⟨h1, h2⟩ | ⟨h1, h2⟩)
    · have hk : resolvedApiKey args env = none := by
        simp [resolvedApiKey, get_from_dict_or_env, truthy, h1, h2]
      exact ⟨"MINIMAX_API_KEY", by simp [construct, hk]⟩
    · have hg : resolvedGroupId args env = none := by
        simp [resolvedGroupId, get_from_dict_or_env, truthy, h1, h2]
      cases hk : resolvedApiKey args env with
      | none => exact ⟨"MINIMAX_API_KEY", by simp [construct, hk]⟩
      | some k => exact ⟨"MINIMAX_GROUP_ID", by simp [construct, hk, hg]⟩
  · intro k g hk hg
    rcases get_from_dict_or_env_default args.minimax_api_host env.MINIMAX_API_HOST
      "https://api.minimax.chat" with ⟨host, hh⟩
    have hh' : resolvedApiHost args env = some host := hh
    refine ⟨host,
      { _client := mkEndpointClient host g ⟨k⟩ none
        model := args.model
        max_tokens := args.max_tokens
        temperature := args.temperature
        top_p := args.top_p
        model_kwargs := args.model_kwargs
        minimax_api_host := some host
        minimax_group_id := some g
        minimax_api_key := some ⟨k⟩ }, hh', ?_, rfl, rfl, rfl, rfl⟩
    simp [construct, hk, hg, hh']

/-- C1 witness: construction with nothing supplied fails with a
configuration error; construction from the fixture arguments succeeds and
binds the client to the resolved credentials. -/
theorem minimax_construct_spec_witness :
    (∃ e, construct {} {} = Except.error (MinimaxError.ConfigurationError e)) ∧
    (∃ host m, resolvedApiHost argsEx envEx = some host ∧
      construct argsEx envEx = Except.ok m ∧
      m._client = mkEndpointClient host "my-group-id" ⟨"my-api-key"⟩ none ∧
      m._client.api_key = ⟨"my-api-key"⟩ ∧ m._client.group_id = "my-group-id" ∧
      m._client.host = host) := by
  constructor
  · exact (minimax_construct_spec {} {}).1 (Or.inl ⟨rfl, rfl⟩)
  · exact (minimax_construct_spec argsEx envEx).2 "my-api-key" "my-group-id" rfl rfl

/-- C2: for a response whose body is a well-formed envelope, the endpoint
client fails with a `TransportError` carrying the status code and raw body
text when the HTTP status is not in the success range, fails with an
`ApplicationError` carrying the code and `status_msg` when
`base_resp.status_code` is positive, succeeds otherwise (no other failure
mode), and every error is propagated unchanged to the caller of the
generate entry point. -/
theorem endpoint_post_error_spec (status : Nat) (text : String) (code : Int)
    (msg reply : String) :
    (400 ≤ status →
      handleResponse (mkResponse status text (some (envelopeBody code msg reply))) =
        Except.error (MinimaxError.TransportError status text)) ∧
    (status < 400 → 0 < code →
      handleResponse (mkResponse status text (some (envelopeBody code msg reply))) =
        Except.error (MinimaxError.ApplicationError code msg)) ∧
    (status < 400 → code ≤ 0 →
      handleResponse (mkResponse status text (some (envelopeBody code msg reply))) =
        Except.ok (JValue.str reply)) ∧
    (∀ (m : MinimaxCommon) (transport : Transport) (prompt : String)
        (stop : Option (List String)) (kwargs : Dict) (e : MinimaxError),
      EndpointClient.post m._client transport (buildRequest m prompt kwargs) =
        Except.error e →
      call m transport prompt stop kwargs = Except.error e) := by
  refine ⟨?_, ?_, ?_, ?_⟩
  · intro h
    have hok : ¬ (status < 400) := by omega
    simp [handleResponse, HTTPResponse.ok, mkResponse, hok, h]
  · intro h1 h2
    simp [handleResponse, HTTPResponse.ok, mkResponse, h1, envelopeBody, jGet,
      dictGet, h2, (show ¬ 400 ≤ status by omega)]
  · intro h1 h2
    have h2' : ¬ (0 < code) := by omega
    simp [handleResponse, HTTPResponse.ok, mkResponse, h1, envelopeBody, jGet,
      dictGet, h2', (show ¬ 400 ≤ status by omega)]
  · intro m transport prompt stop kwargs e h
    unfold call
    rw [h]

/-- C2 witness: HTTP 500 yields the transport error with status and body
text; HTTP 200 with `base_resp.status_code = 1002`, `status_msg`
"rate limited" yields the application error; a transport error reaches the
caller of the generate entry point unchanged. -/
theorem endpoint_post_error_spec_witness :
    handleResponse (mkResponse 500 "oops" (some (envelopeBody 1002 "rate limited" ""))) =
      Except.error (MinimaxError.TransportError 500 "oops") ∧
    handleResponse (mkResponse 200 "" (some (envelopeBody 1002 "rate limited" ""))) =
      Except.error (MinimaxError.ApplicationError 1002 "rate limited") ∧
    call mEx transport500 "x" none [] =
      Except.error (MinimaxError.TransportError 500 "oops") := by
  refine ⟨?_, ?_, ?_⟩
  · exact (endpoint_post_error_spec 500 "oops" 1002 "rate limited" "").1 (by omega)
  · exact (endpoint_post_error_spec 200 "" 1002 "rate limited" "").2.1 (by omega) (by omega)
  · exact (endpoint_post_error_spec 0 "" 0 "" "").2.2.2 mEx transport500 "x" none []
      (MinimaxError.TransportError 500 "oops") rfl

/-- C3: on a successful exchange (HTTP success and `base_resp.status_code`
zero) the endpoint client returns exactly the string found at `reply` of the
parsed body, and with a transport echoing `{base_resp: {status_code: 0},
reply: "hello world"}` the generate entry point on prompt "x" with no stop
list returns exactly "hello world". -/
theorem endpoint_post_reply_spec (status : Nat) (text : String) (code : Int)
    (msg reply : String) :
    (status < 400 → code ≤ 0 →
      handleResponse (mkResponse status text (some (envelopeBody code msg reply))) =
        Except.ok (JValue.str reply)) ∧
    call mEx (echoTransport "hello world") "x" none [] =
      Except.ok (JValue.str "hello world") := by
  constructor
  · intro h1 h2
    have h2' : ¬ (0 < code) := by omega
    simp [handleResponse, HTTPResponse.ok, mkResponse, h1, envelopeBody, jGet,
      dictGet, h2', (show ¬ 400 ≤ status by omega)]
  · rfl

/-- C3 witness: the success clause evaluated at HTTP 200, code 0,
reply "hello world". -/
theorem endpoint_post_reply_spec_witness :
    handleResponse (mkResponse 200 "" (some (envelopeBody 0 "" "hello world"))) =
      Except.ok (JValue.str "hello world") :=
  (endpoint_post_reply_spec 200 "" 0 "" "hello world").1 (by omega) (by omega)

/-- C4: stop-token truncation (modelled from the spec, since the source of
`enforce_stop_tokens` is not among the sources under verification): with a
supplied stop list, the reply is returned unmodified when no stop string
occurs in it, and is truncated to end just before the smallest starting
index of any occurrence otherwise; reply "hello world foo" with stop list
["world", "foo"] yields "hello "; and the generate entry point applies this
truncation to a successful string reply. -/
theorem generate_stop_truncation_spec (text : String) (stop : List String) :
    ((∀ i s, s ∈ stop → ¬ occursAt s text i) →
      enforce_stop_tokens text stop = text) ∧
    (∀ i, (∃ s ∈ stop, occursAt s text i) →
      (∀ j, j < i → ¬ ∃ s ∈ stop, occursAt s text j) →
      enforce_stop_tokens text stop = String.mk (text.data.take i)) ∧
    enforce_stop_tokens "hello world foo" ["world", "foo"] = "hello " ∧
    (∀ (m : MinimaxCommon) (transport : Transport) (prompt : String)
        (kwargs : Dict) (t : String),
      EndpointClient.post m._client transport (buildRequest m prompt kwargs) =
        Except.ok (JValue.str t) →
      call m transport prompt (some stop) kwargs =
        Except.ok (JValue.str (enforce_stop_tokens t stop))) := by
  refine ⟨enforce_eq_of_no_occurrence text stop, ?_, by decide, ?_⟩
  · intro i h1 h2
    exact enforce_eq_take text stop i h1 h2
  · intro m transport prompt kwargs t h
    unfold call
    rw [h]

/-- C4 witness: the truncation clause evaluated at reply "hello world foo"
and stop list ["world", "foo"], whose earliest occurrence starts at index 6. -/
theorem generate_stop_truncation_spec_witness :
    enforce_stop_tokens "hello world foo" ["world", "foo"] =
      String.mk ("hello world foo".data.take 6) := by
  apply (generate_stop_truncation_spec "hello world foo" ["world", "foo"]).2.1 6
  · exact ⟨"world", by simp, "hello ".data, " foo".data, by decide, by decide⟩
  · intro j hj
    rintro ⟨s, hs, hocc⟩
    rw [occursAt_iff] at hocc
    rcases hocc with ⟨hm, hi⟩
    simp only [List.mem_cons, List.not_mem_nil, or_false] at hs
    interval_cases j <;> rcases hs with rfl | rfl <;> revert hm <;> decide

/-- C5: the stop-token truncation (modelled from the spec) matches stop
strings by literal substring occurrence only: regex metacharacters such as
'.', '|' and '(' are matched as those exact characters (a regex
interpretation would truncate "axb" at index 0 for stop string ".", and
"ab" at index 0 for stop string "a|b"; the literal matching does not). -/
theorem stop_literal_matching_spec :
    enforce_stop_tokens "a.b" ["."] = "a" ∧
    enforce_stop_tokens "axb" ["."] = "axb" ∧
    enforce_stop_tokens "ab" ["a|b"] = "ab" ∧
    enforce_stop_tokens "ca|bd" ["a|b"] = "c" ∧
    enforce_stop_tokens "x(y)z" ["("] = "x" ∧
    enforce_stop_tokens "hello world" ["zzz"] = "hello world" := by
  refine ⟨?_, ?_, ?_, ?_, ?_, ?_⟩ <;> decide

/-- C6: `_default_params` yields a mapping whose key set is exactly
{model, tokens_to_generate, temperature, top_p} union the keys of
`model_kwargs`, with the four base values taken from the instance
configuration and `model_kwargs` entries winning on key collision; it is a
pure function of the configuration (a Lean function of `m` alone). -/
theorem default_params_spec (m : MinimaxCommon) :
    (∀ k : String, containsKey (default_params m) k = true ↔
      (k ∈ (["model", "tokens_to_generate", "temperature", "top_p"] : List String) ∨
        containsKey m.model_kwargs k = true)) ∧
    (∀ k v, lastVal m.model_kwargs k = some v →
      dictGet (default_params m) k = some v) ∧
    (containsKey m.model_kwargs "model" = false →
      dictGet (default_params m) "model" = some (JValue.str m.model)) ∧
    (containsKey m.model_kwargs "tokens_to_generate" = false →
      dictGet (default_params m) "tokens_to_generate" =
        some (JValue.int m.max_tokens)) ∧
    (containsKey m.model_kwargs "temperature" = false →
      dictGet (default_params m) "temperature" = some (JValue.rat m.temperature)) ∧
    (containsKey m.model_kwargs "top_p" = false →
      dictGet (default_params m) "top_p" = some (JValue.rat m.top_p)) := by
  refine ⟨?_, ?_, ?_, ?_, ?_, ?_⟩
  · intro k
    unfold default_params
    rw [containsKey_dictUpdate]
    simp only [containsKey, Bool.or_eq_true, decide_eq_true_eq, List.mem_cons,
      List.not_mem_nil, or_false]
    constructor
    · rintro (h | h)
      · rcases h with h | h | h | h
        · exact Or.inl (Or.inl h.symm)
        · exact Or.inl (Or.inr (Or.inl h.symm))
        · exact Or.inl (Or.inr (Or.inr (Or.inl h.symm)))
        · rcases h with h | h
          · exact Or.inl (Or.inr (Or.inr (Or.inr h.symm)))
          · exact absurd h (by simp [containsKey])
      · exact Or.inr h
    · rintro (h | h)
      · rcases h with h | h | h | h
        · exact Or.inl (Or.inl h.symm)
        · exact Or.inl (Or.inr (Or.inl h.symm))
        · exact Or.inl (Or.inr (Or.inr (Or.inl h.symm)))
        · exact Or.inl (Or.inr (Or.inr (Or.inr (Or.inl h.symm))))
      · exact Or.inr h
  · intro k v h
    unfold default_params
    rw [dictGet_dictUpdate, h]
  · intro h
    unfold default_params
    rw [dictGet_dictUpdate, (lastVal_eq_none _ _).mpr h]
    rfl
  · intro h
    unfold default_params
    rw [dictGet_dictUpdate, (lastVal_eq_none _ _).mpr h]
    rfl
  · intro h
    unfold default_params
    rw [dictGet_dictUpdate, (lastVal_eq_none _ _).mpr h]
    rfl
  · intro h
    unfold default_params
    rw [dictGet_dictUpdate, (lastVal_eq_none _ _).mpr h]
    rfl

/-- C6 witness: the spec of `_default_params` evaluated on the fixture
adapter (empty `model_kwargs`) and on an adapter whose `model_kwargs`
overrides the temperature. -/
theorem default_params_spec_witness :
    containsKey (default_params mEx) "temperature" = true ∧
    dictGet (default_params mEx) "model" = some (JValue.str "abab5.5-chat") ∧
    dictGet (default_params
        { mEx with model_kwargs := [("temperature", JValue.rat 2)] })
      "temperature" = some (JValue.rat 2) := by
  refine ⟨?_, ?_, ?_⟩
  · exact ((default_params_spec mEx).1 "temperature").mpr (Or.inl (by simp))
  · exact (default_params_spec mEx).2.2.1 rfl
  · exact (default_params_spec
      { mEx with model_kwargs := [("temperature", JValue.rat 2)] }).2.1
      "temperature" (JValue.rat 2) rfl

/-- C7: the request body sent to the transport is `_default_params` with the
`messages` entry added and then the call-time overrides merged over it,
overrides winning on every key collision; in particular an override
`temperature: 1/10` is sent even though the fixture instance default is
7/10. -/
theorem call_overrides_spec (m : MinimaxCommon) (prompt : String) (kwargs : Dict) :
    buildRequest m prompt kwargs =
      dictUpdate (dictSet (default_params m) "messages" (messagesFor prompt))
        kwargs ∧
    (∀ k v, lastVal kwargs k = some v →
      dictGet (buildRequest m prompt kwargs) k = some v) ∧
    dictGet (buildRequest mEx "p" [("temperature", JValue.rat (1 / 10))])
      "temperature" = some (JValue.rat (1 / 10)) ∧
    mEx.temperature = 7 / 10 := by
  refine ⟨rfl, ?_, ?_, rfl⟩
  · intro k v h
    unfold buildRequest
    rw [dictGet_dictUpdate, h]
  · rfl

/-- C7 witness: the override clause evaluated at a call-time override of the
temperature. -/
theorem call_overrides_spec_witness :
    dictGet (buildRequest mEx "p" [("temperature", JValue.rat (1 / 10))])
      "temperature" = some (JValue.rat (1 / 10)) :=
  (call_overrides_spec mEx "p" [("temperature", JValue.rat (1 / 10))]).2.1
    "temperature" (JValue.rat (1 / 10)) rfl

/-- C8: a call leaves the adapter configuration (all fields, including the
bound client) unchanged — the embedding of `_call`, which contains no
assignment to `self` and seeds its request from the fresh dict built by
`_default_params`, threads the state through unmodified — so two successive
calls with equal arguments build equal request bodies. -/
theorem call_frame_spec (m : MinimaxCommon) (transport : Transport)
    (prompt : String) (stop : Option (List String)) (kwargs : Dict) :
    (callST m transport prompt stop kwargs).2 = m ∧
    (callST m transport prompt stop kwargs).1 = call m transport prompt stop kwargs ∧
    buildRequest (callST m transport prompt stop kwargs).2 prompt kwargs =
      buildRequest m prompt kwargs ∧
    default_params (callST m transport prompt stop kwargs).2 = default_params m :=
  ⟨rfl, rfl, rfl, rfl⟩

/-- C9 counterexample: at a concrete successful exchange, calling with
`stop = []` returns the reply unmodified, and the result coincides with the
result of omitting `stop` — against the claim that the empty-list case is
not equivalent to omitting stop. -/
theorem call_empty_stop_counterexample :
    call mEx (echoTransport "hello world") "x" (some []) [] =
      Except.ok (JValue.str "hello world") ∧
    call mEx (echoTransport "hello world") "x" (some []) [] =
      call mEx (echoTransport "hello world") "x" none [] :=
  ⟨rfl, rfl⟩

/-- C9 (amended): the stop-token filter is applied exactly when `stop` is
not `None`, including when it is the empty list; under the literal-substring
truncation an empty stop list truncates nothing, so for string replies the
empty-list case returns the reply unmodified and its result coincides with
omitting `stop`. -/
theorem call_empty_stop_spec :
    (∀ t : String, enforce_stop_tokens t [] = t) ∧
    (∀ (m : MinimaxCommon) (transport : Transport) (prompt : String)
        (kwargs : Dict) (s : List String) (t : String),
      EndpointClient.post m._client transport (buildRequest m prompt kwargs) =
        Except.ok (JValue.str t) →
      call m transport prompt (some s) kwargs =
        Except.ok (JValue.str (enforce_stop_tokens t s))) ∧
    (∀ (m : MinimaxCommon) (transport : Transport) (prompt : String)
        (kwargs : Dict) (t : String),
      EndpointClient.post m._client transport (buildRequest m prompt kwargs) =
        Except.ok (JValue.str t) →
      call m transport prompt (some []) kwargs =
        call m transport prompt none kwargs) := by
  refine ⟨fun t => rfl, ?_, ?_⟩
  · intro m transport prompt kwargs s t h
    unfold call
    rw [h]
  · intro m transport prompt kwargs t h
    unfold call
    rw [h]
    simp [enforce_stop_tokens, earliestStop]

/-- C9 witness: the amended clauses evaluated on the fixture: a non-empty
stop list is applied as the filter, and the empty stop list coincides with
omitting stop. -/
theorem call_empty_stop_spec_witness :
    call mEx (echoTransport "hello world") "x" (some ["lo"]) [] =
      Except.ok (JValue.str (enforce_stop_tokens "hello world" ["lo"])) ∧
    call mEx (echoTransport "hello world") "x" (some []) [] =
      call mEx (echoTransport "hello world") "x" none [] := by
  constructor
  · exact call_empty_stop_spec.2.1 mEx (echoTransport "hello world") "x" []
      ["lo"] "hello world" rfl
  · exact call_empty_stop_spec.2.2 mEx (echoTransport "hello world") "x" []
      "hello world" rfl

/-- C10: when the call-time overrides contain the key "messages", the
override value replaces the prompt message in the request body (overrides
are merged after the `messages` entry is set); without such an override,
the body's `messages` entry is the prompt message list. -/
theorem messages_override_spec (m : MinimaxCommon) (prompt : String)
    (kwargs : Dict) :
    (∀ v, lastVal kwargs "messages" = some v →
      dictGet (buildRequest m prompt kwargs) "messages" = some v) ∧
    (lastVal kwargs "messages" = none →
      dictGet (buildRequest m prompt kwargs) "messages" =
        some (messagesFor prompt)) := by
  constructor
  · intro v h
    unfold buildRequest
    rw [dictGet_dictUpdate, h]
  · intro h
    unfold buildRequest
    rw [dictGet_dictUpdate, h, dictGet_dictSet]
    simp

/-- C10 witness: a call-time override of "messages" replaces the prompt
message in the request body of the fixture adapter. -/
theorem messages_override_spec_witness :
    dictGet (buildRequest mEx "p" [("messages", JValue.list [])]) "messages" =
      some (JValue.list []) :=
  (messages_override_spec mEx "p" [("messages", JValue.list [])]).1
    (JValue.list []) rfl

end Minimax
